import Mathlib

/-!
Verification of the patch-extraction, normalization and augmentation pipeline
of the CARE notebook (`exercise3.ipynb`) of the `dlmbl/image_restoration`
repository.

The numeric arrays of the notebook (numpy `ndarray`) are embedded in two ways:

* `NDA`: a nested-list tensor of rational scalars, used for `create_patches`,
  which manipulates arrays of arbitrary rank.  Rationals stand for the exact
  values held by the floats; `astype(np.float32)` is value-preserving in this
  exact model.
* `Mat`: a plain matrix (`List (List ℚ)`) for the two-dimensional patches
  handled by `normalize`, `denormalize`, `_flip_and_rotate`, `augment_batch`
  and `CAREDataset.__getitem__`.

Randomness: `create_patches` uses an unseeded `np.random.default_rng()`; it is
embedded as an explicit entropy supply `supply : Nat → Nat → Nat → Nat` giving
the raw draw for sample `s`, patch `j`, dimension `i`.  The bounded draw
`rng.integers(0, hi, endpoint=True)` errors when `hi < 0` (numpy raises
`ValueError: low >= high`) and otherwise returns a value in `[0, hi]`; the
model reduces the raw draw modulo `hi + 1`, so every admissible value is
realisable by some supply.  `augment_batch` builds `np.random.default_rng(seed)`
from its `seed` argument alone, so its draws are a pure function of the seed;
the model uses a fixed hash in place of the PCG64 bit stream (the claims under
study depend only on determinism and on the ranges of the draws, never on the
particular values of the PCG64 stream).
-/

namespace CARE

/-- A numpy `ndarray` as a nested list tree with rational scalar leaves. -/
inductive NDA where
  | scalar : ℚ → NDA
  | arr : List NDA → NDA

/-- The numpy `shape` of a (regular) tensor, read along the first children.
All arrays manipulated by the notebook are regular (numpy arrays cannot be
ragged), so reading the first child is faithful. -/
def NDA.shape : NDA → List Nat
  | .scalar _ => []
  | .arr [] => [0]
  | .arr (x :: xs) => (xs.length + 1) :: x.shape

/-- numpy `ndim`. -/
def NDA.ndim (t : NDA) : Nat := t.shape.length

/-- `hasShape t s` holds when `t` is a regular tensor of shape `s`. -/
def hasShape : NDA → List Nat → Bool
  | .scalar _, [] => true
  | .arr _, [] => false
  | .scalar _, _ :: _ => false
  | .arr xs, n :: rest => xs.length == n && xs.all (fun x => hasShape x rest)

/-- Python slicing `xs[c : c + p]`: out-of-range bounds clamp silently,
exactly as `List.drop`/`List.take` do. -/
def sliceClamp (c p : Nat) (xs : List NDA) : List NDA := (xs.drop c).take p

/-- Apply start/length slices to the outermost axes (used once the ellipsis
has consumed the leading axes). -/
def sliceLast : NDA → List (Nat × Nat) → NDA
  | t, [] => t
  | .scalar v, _ :: _ => .scalar v
  | .arr xs, (c, p) :: rest => .arr ((sliceClamp c p xs).map (fun x => sliceLast x rest))

/-- Helper for `sliceEllipsis`: skip `e` leading axes, then slice. -/
def sliceEllipsisAux : Nat → NDA → List (Nat × Nat) → NDA
  | 0, t, sl => sliceLast t sl
  | _ + 1, .scalar v, _ => .scalar v
  | e + 1, .arr xs, sl => .arr (xs.map (fun x => sliceEllipsisAux e x sl))

/-- numpy indexing `t[(..., *slices)]`: the slices are aligned to the LAST
axes of `t`, the leading axes are passed through whole. -/
def sliceEllipsis (t : NDA) (sl : List (Nat × Nat)) : NDA :=
  sliceEllipsisAux (t.ndim - sl.length) t sl

/-- `rng.integers(0, hi, endpoint=True)`: numpy raises `ValueError` when
`hi < 0`, otherwise draws uniformly from `[0, hi]`.  `draw` is the raw
entropy; reduction modulo `hi + 1` makes every admissible value reachable. -/
def integersEndpoint (draw : Nat) (hi : Int) : Except String Nat :=
  if hi < 0 then .error "ValueError: low >= high" else .ok (draw % (hi.toNat + 1))

/-- Sequential effectful map with the short-circuit-on-first-error semantics
of a Python `for` loop over fallible statements. -/
def mapE (f : α → Except String β) : List α → Except String (List β)
  | [] => .ok []
  | a :: l =>
    match f a with
    | .error e => .error e
    | .ok b =>
      match mapE f l with
      | .error e => .error e
      | .ok bs => .ok (b :: bs)

/-- Ceiling division on naturals: `np.ceil(a / b).astype(int)` for `b > 0`. -/
def ceilDivNat (a b : Nat) : Nat := (a + b - 1) / b

/-- The `crop_coords` list comprehension of `create_patches`:
`[rng.integers(0, sample.shape[i] - patch_size[i], endpoint=True)
  for i in range(len(patch_size))]`.
Note that it reads `sample.shape[i]`, i.e. the i-th dimension FROM THE FRONT
of the per-sample shape, even when the sample carries extra leading axes. -/
def drawCrop (supply : Nat → Nat → Nat → Nat) (s j : Nat)
    (sshape patch_size : List Nat) : Except String (List Nat) :=
  mapE (fun i =>
    match sshape.get? i with
    | none => .error "IndexError: tuple index out of range"
    | some d => integersEndpoint (supply s j i) ((d : Int) - (patch_size.getD i 0 : Int)))
    (List.range patch_size.length)

/-- The value `drawCrop` assigns to coordinate `i` when every bound is
admissible: the raw draw reduced into `[0, S[i] - P[i]]`. -/
def drawnCoord (supply : Nat → Nat → Nat → Nat) (s j : Nat) (S P : List Nat)
    (i : Nat) : Nat :=
  supply s j i % (S.getD i 0 - P.getD i 0 + 1)

/-- `n_patches = np.ceil(np.prod(sample.shape) / np.prod(patch_size)).astype(int)`. -/
def nPatches (sample : NDA) (patch_size : List Nat) : Nat :=
  ceilDivNat sample.shape.prod patch_size.prod

/-- The inner loop of `create_patches` for one sample: draw `n_patches`
coordinate tuples and crop the sample and the target sample at the SAME
coordinates (`.copy().astype(np.float32)` is value-preserving here). -/
def patchesForSample (supply : Nat → Nat → Nat → Nat) (s : Nat)
    (sample target_sample : NDA) (patch_size : List Nat) :
    Except String (List (NDA × NDA)) :=
  mapE (fun j =>
    match drawCrop supply s j sample.shape patch_size with
    | .error e => .error e
    | .ok coords =>
      let sl := coords.zip patch_size
      .ok (sliceEllipsis sample sl, sliceEllipsis target_sample sl))
    (List.range (nPatches sample patch_size))

/-- The full double loop of `create_patches`, returning the flat list of
drawn `(patch, target_patch)` pairs in order.  `target_array[s]` raises an
`IndexError` when `s` is out of range, which short-circuits the loop. -/
def drawnPatches (supply : Nat → Nat → Nat → Nat)
    (image_array target_array : List NDA) (patch_size : List Nat) :
    Except String (List (List (NDA × NDA))) :=
  mapE (fun s =>
    match image_array.get? s, target_array.get? s with
    | some sample, some tgt => patchesForSample supply s sample tgt patch_size
    | _, _ => .error "IndexError: index out of bounds")
    (List.range image_array.length)

/-- `np.stack`: fails on an empty list and on members of unequal shape,
otherwise prepends a new axis.  (All members produced by `create_patches`
are regular arrays, so comparing `NDA.shape` is faithful.) -/
def npStack (xs : List NDA) : Except String NDA :=
  match xs with
  | [] => .error "ValueError: need at least one array to stack"
  | x :: rest =>
    if rest.all (fun y => y.shape == x.shape) then .ok (.arr (x :: rest))
    else .error "ValueError: all input arrays must have the same shape"

/-- `create_patches(image_array, target_array, patch_size)` of the notebook:
per sample, draw `n_patches` random paired crops, then stack all image
patches and all target patches. -/
def create_patches (supply : Nat → Nat → Nat → Nat)
    (image_array target_array : List NDA) (patch_size : List Nat) :
    Except String (NDA × NDA) :=
  match drawnPatches supply image_array target_array patch_size with
  | .error e => .error e
  | .ok lists =>
    let pairs := lists.flatten
    match npStack (pairs.map Prod.fst) with
    | .error e => .error e
    | .ok imgs =>
      match npStack (pairs.map Prod.snd) with
      | .error e => .error e
      | .ok tgts => .ok (imgs, tgts)

/-! ### Concrete test tensors used by witnesses and counterexamples -/

/-- A 2 × 2 image. -/
def imgA : NDA := .arr [.arr [.scalar 1, .scalar 2], .arr [.scalar 3, .scalar 4]]

/-- Another 2 × 2 image. -/
def imgB : NDA := .arr [.arr [.scalar 5, .scalar 6], .arr [.scalar 7, .scalar 8]]

/-- A 1 × 1 image. -/
def imgTiny : NDA := .arr [.arr [.scalar 9]]

/-- An image of shape `(1, 2, 2)`: a 2 × 2 image with one leading axis. -/
def imgLead1 : NDA := .arr [imgA]

/-- An image of shape `(3, 2, 2)`: three stacked 2 × 2 planes. -/
def imgLead3 : NDA := .arr [imgA, imgB, imgA]

/-- An image of shape `(6, 2)`: six rows of two pixels. -/
def imgTall6 : NDA :=
  .arr [.arr [.scalar 1, .scalar 2], .arr [.scalar 3, .scalar 4],
        .arr [.scalar 5, .scalar 6], .arr [.scalar 7, .scalar 8],
        .arr [.scalar 9, .scalar 10], .arr [.scalar 11, .scalar 12]]

/-! ### Two-dimensional patches: normalization, augmentation, dataset -/

/-- A two-dimensional patch (rows of rationals). -/
abbrev Mat := List (List ℚ)

/-- `normalize(image, mean, std) = (image - mean) / std`, elementwise. -/
def normalize (image : Mat) (mean std : ℚ) : Mat :=
  image.map (fun row => row.map (fun x => (x - mean) / std))

/-- `denormalize(image, mean, std) = image * std + mean`, elementwise. -/
def denormalize (image : Mat) (mean std : ℚ) : Mat :=
  image.map (fun row => row.map (fun x => x * std + mean))

/-- Number of columns of a matrix (length of its first row). -/
def numCols (m : Mat) : Nat := (m.headD []).length

/-- One quarter turn `np.rot90(m, k=1, axes=(-2,-1))`: the columns of `m`,
taken from the last one to the first one, become the rows. -/
def rot90 (m : Mat) : Mat :=
  (List.range (numCols m)).reverse.map (fun c => m.map (fun row => row.getD c 0))

/-- `np.flip(m, axis=-1)`: mirror along the last axis. -/
def flipLast (m : Mat) : Mat := m.map List.reverse

/-- `_flip_and_rotate(image, rotate_state, flip_state)`: `rotate_state`
quarter turns, then a mirror along the last axis when `flip_state == 1`
(`.copy()` is the identity on values). -/
def flip_and_rotate (image : Mat) (rotate_state flip_state : Nat) : Mat :=
  let rotated := rot90^[rotate_state] image
  if flip_state == 1 then flipLast rotated else rotated

/-- Model of the raw 32-bit output stream of `np.random.default_rng(seed)`:
a fixed hash of the seed and the draw index.  The claims under study depend
only on the determinism of the stream in the seed and on the ranges of the
bounded draws, never on the particular PCG64 values. -/
def rngDraw (seed i : Nat) : Nat := (2654435761 * seed + 40503 * i + 12345) % 4294967296

/-- First draw of `augment_batch`: `rng.integers(0, 4)`, a value in `{0,1,2,3}`. -/
def rngRotateState (seed : Nat) : Nat := rngDraw seed 0 % 4

/-- Second draw of `augment_batch`: `rng.integers(0, 2)`, a value in `{0,1}`. -/
def rngFlipState (seed : Nat) : Nat := rngDraw seed 1 % 2

/-- The declared default of the `seed` parameter of `augment_batch`. -/
def AUGMENT_DEFAULT_SEED : Nat := 42

/-- `augment_batch(patch, target, seed)`: seed a fresh generator from `seed`,
draw one `rotate_state` and one `flip_state`, and apply the SAME pair of
states to both arrays. -/
def augment_batch (patch target : Mat) (seed : Nat) : Mat × Mat :=
  let rotate_state := rngRotateState seed
  let flip_state := rngFlipState seed
  (flip_and_rotate patch rotate_state flip_state,
   flip_and_rotate target rotate_state flip_state)

/-- numpy dtype tags, kept to track `.astype(np.float32)`. -/
inductive Dtype where
  | float32 : Dtype
  | float64 : Dtype
deriving DecidableEq

/-- A three-dimensional array (stack of matrices) with its dtype, the return
type of `CAREDataset.__getitem__` after `patch[np.newaxis].astype(np.float32)`.
The exact rational values stand for the float32 payload. -/
structure Arr3 where
  data : List Mat
  dtype : Dtype
deriving DecidableEq

/-- The notebook-global normalization statistics
(`train_mean`, `train_std`, `target_mean`, `target_std`). -/
structure Stats where
  train_mean : ℚ
  train_std : ℚ
  target_mean : ℚ
  target_std : ℚ

/-- The members set by `CAREDataset.__init__`. -/
structure CAREDataset where
  image_data : List Mat
  target_data : List Mat
  patch_augment : Bool

/-- `CAREDataset.__len__`: `self.image_data.shape[0]`. -/
def CAREDataset.len (d : CAREDataset) : Nat := d.image_data.length

/-- `CAREDataset.__getitem__(index)`.  `ambient` stands for the entropy the
process would have at call time (for instance the state of the global numpy
generator); the source never consumes it, because its only random step calls
`augment_batch(patch=patch, target=target)` with the `seed` parameter left at
its default `42`, which reseeds a fresh generator on every call. -/
def CAREDataset.getitem (st : Stats) (d : CAREDataset) (ambient : Nat → Nat)
    (index : Nat) : Arr3 × Arr3 :=
  let patch := d.image_data.getD index []
  let target := d.target_data.getD index []
  let pt :=
    if d.patch_augment then augment_batch patch target AUGMENT_DEFAULT_SEED
    else (patch, target)
  let patchN := normalize pt.1 st.train_mean st.train_std
  let targetN := normalize pt.2 st.target_mean st.target_std
  (⟨[patchN], Dtype.float32⟩, ⟨[targetN], Dtype.float32⟩)

/-! ### Helper notions used by the statements -/

/-- Elementwise scaling of a matrix, used to state the pairing property of
`augment_batch` on the synthetic pair `target = patch * 2`. -/
def scaleMat (a : ℚ) (m : Mat) : Mat := m.map (fun row => row.map (fun x => a * x))

/-- The `(rows, cols)` shape of a matrix. -/
def matShape (m : Mat) : Nat × Nat := (m.length, numCols m)

/-! ### Lemmas about the geometric transforms -/

theorem optGetD_map_mul (a : ℚ) (o : Option ℚ) :
    (Option.map (fun x => a * x) o).getD 0 = a * o.getD 0 := by
  cases o <;> simp

theorem numCols_scaleMat (a : ℚ) (m : Mat) : numCols (scaleMat a m) = numCols m := by
  cases m <;> simp [numCols, scaleMat]

theorem rot90_scaleMat (a : ℚ) (m : Mat) :
    rot90 (scaleMat a m) = scaleMat a (rot90 m) := by
  unfold rot90
  rw [numCols_scaleMat]
  simp [scaleMat, List.map_map, Function.comp_def, optGetD_map_mul]

theorem flipLast_scaleMat (a : ℚ) (m : Mat) :
    flipLast (scaleMat a m) = scaleMat a (flipLast m) := by
  simp [flipLast, scaleMat, List.map_map, Function.comp_def]

theorem rot90_iterate_scaleMat (a : ℚ) (k : Nat) (m : Mat) :
    rot90^[k] (scaleMat a m) = scaleMat a (rot90^[k] m) := by
  induction k generalizing m with
  | zero => rfl
  | succ n ih =>
    rw [Function.iterate_succ_apply, Function.iterate_succ_apply, rot90_scaleMat, ih]

theorem flip_and_rotate_scaleMat (a : ℚ) (m : Mat) (r f : Nat) :
    flip_and_rotate (scaleMat a m) r f = scaleMat a (flip_and_rotate m r f) := by
  unfold flip_and_rotate
  cases h : (f == 1) <;> simp [h, rot90_iterate_scaleMat, flipLast_scaleMat]

theorem matShape_rot90_square (k : Nat) (m : Mat) (h : matShape m = (k, k)) :
    matShape (rot90 m) = (k, k) := by
  obtain ⟨hl, hc⟩ : m.length = k ∧ numCols m = k := by
    simpa [matShape, Prod.ext_iff] using h
  cases k with
  | zero =>
    have hm : m = [] := List.length_eq_zero.mp hl
    subst hm
    simp [matShape, rot90, numCols]
  | succ n =>
    simp only [matShape, rot90, hc, Prod.mk.injEq]
    constructor
    · simp
    · simp [numCols, List.range_succ, hl]

theorem matShape_flipLast (m : Mat) : matShape (flipLast m) = matShape m := by
  cases m <;> simp [matShape, flipLast, numCols]

theorem matShape_iterate_rot90_square (k r : Nat) (m : Mat) (h : matShape m = (k, k)) :
    matShape (rot90^[r] m) = (k, k) := by
  induction r generalizing m with
  | zero => simpa
  | succ n ih => rw [Function.iterate_succ_apply]; exact ih _ (matShape_rot90_square k m h)

theorem matShape_flip_and_rotate_square (k r f : Nat) (m : Mat)
    (h : matShape m = (k, k)) : matShape (flip_and_rotate m r f) = (k, k) := by
  unfold flip_and_rotate
  cases hf : (f == 1) <;>
    simp [hf, matShape_flipLast, matShape_iterate_rot90_square k r m h]

theorem matShape_normalize (m : Mat) (μ σ : ℚ) :
    matShape (normalize m μ σ) = matShape m := by
  cases m <;> simp [matShape, normalize, numCols]

/-- `__getitem__` with augmentation disabled, written out. -/
theorem getitem_eq_of_not_augment (st : Stats) (d : CAREDataset) (a : Nat → Nat)
    (i : Nat) (h : d.patch_augment = false) :
    CAREDataset.getitem st d a i =
      (⟨[normalize (d.image_data.getD i []) st.train_mean st.train_std], Dtype.float32⟩,
       ⟨[normalize (d.target_data.getD i []) st.target_mean st.target_std],
         Dtype.float32⟩) := by
  simp [CAREDataset.getitem, h]

/-- `__getitem__` with augmentation enabled, written out: the augmentation
state is the fixed pair drawn from the default seed 42. -/
theorem getitem_eq_of_augment (st : Stats) (d : CAREDataset) (a : Nat → Nat)
    (i : Nat) (h : d.patch_augment = true) :
    CAREDataset.getitem st d a i =
      (⟨[normalize (flip_and_rotate (d.image_data.getD i [])
            (rngRotateState 42) (rngFlipState 42)) st.train_mean st.train_std],
         Dtype.float32⟩,
       ⟨[normalize (flip_and_rotate (d.target_data.getD i [])
            (rngRotateState 42) (rngFlipState 42)) st.target_mean st.target_std],
         Dtype.float32⟩) := by
  simp [CAREDataset.getitem, h, augment_batch, AUGMENT_DEFAULT_SEED]

/-! ### Claims about normalization, augmentation and the dataset -/

/-- C6: for every matrix `x`, mean `m` and nonzero standard deviation `s`,
`denormalize(normalize(x, m, s), m, s) = x` exactly, over exact arithmetic. -/
theorem denormalize_normalize_roundtrip (x : Mat) (m s : ℚ) (hs : s ≠ 0) :
    denormalize (normalize x m s) m s = x := by
  have hg : ∀ v : ℚ, (v - m) / s * s + m = v := by
    intro v; field_simp
  simp only [denormalize, normalize, List.map_map, Function.comp_def, hg]
  simp

/-- Witness for C6 at a concrete matrix, mean 7 and standard deviation 3. -/
theorem denormalize_normalize_roundtrip_witness :
    (3 : ℚ) ≠ 0 ∧
      denormalize (normalize [[1, 2], [4, 5]] 7 3) 7 3 = [[1, 2], [4, 5]] :=
  ⟨by norm_num, denormalize_normalize_roundtrip [[1, 2], [4, 5]] 7 3 (by norm_num)⟩

/-- C7: for every seed and pair of inputs, `augment_batch` applies one shared
rotation count (< 4) and one shared flip flag (< 2) to both arrays — a single
random draw, not two independent ones — and consequently a target equal to
`patch * 2` elementwise stays equal to the augmented patch times 2. -/
theorem augment_batch_shared_state (seed : Nat) (patch target : Mat) :
    ∃ r f : Nat, r < 4 ∧ f < 2 ∧
      augment_batch patch target seed =
        (flip_and_rotate patch r f, flip_and_rotate target r f) ∧
      (target = scaleMat 2 patch →
        (augment_batch patch target seed).2 =
          scaleMat 2 (augment_batch patch target seed).1) := by
  refine ⟨rngRotateState seed, rngFlipState seed, ?_, ?_, rfl, ?_⟩
  · exact Nat.mod_lt _ (by norm_num)
  · exact Nat.mod_lt _ (by norm_num)
  · intro h
    subst h
    simp only [augment_batch]
    exact flip_and_rotate_scaleMat 2 patch _ _

/-- Witness for C7: seed 7 on the pair `([[1, 2]], [[2, 4]])`. -/
theorem augment_batch_shared_state_witness :
    (augment_batch [[1, 2]] (scaleMat 2 [[1, 2]]) 7).2 =
      scaleMat 2 (augment_batch [[1, 2]] (scaleMat 2 [[1, 2]]) 7).1 := by
  obtain ⟨r, f, -, -, -, h⟩ := augment_batch_shared_state 7 [[1, 2]] (scaleMat 2 [[1, 2]])
  exact h rfl

/-- C10: `augment_batch` is deterministic in `(patch, target, seed)` — it
consumes no state besides the generator it seeds itself — and a call that
leaves `seed` at its default uses 42, hence always draws the one rotation
count `rngRotateState 42` and flip flag `rngFlipState 42`. -/
theorem augment_batch_deterministic (p₁ t₁ p₂ t₂ : Mat) (s₁ s₂ : Nat)
    (hp : p₁ = p₂) (ht : t₁ = t₂) (hs : s₁ = s₂) :
    augment_batch p₁ t₁ s₁ = augment_batch p₂ t₂ s₂ ∧
      augment_batch p₁ t₁ AUGMENT_DEFAULT_SEED =
        (flip_and_rotate p₁ (rngRotateState 42) (rngFlipState 42),
         flip_and_rotate t₁ (rngRotateState 42) (rngFlipState 42)) := by
  subst hp; subst ht; subst hs
  exact ⟨rfl, rfl⟩

/-- Witness for C10 at concrete matrices and seed 42. -/
theorem augment_batch_deterministic_witness :
    augment_batch [[1]] [[2]] 42 = augment_batch [[1]] [[2]] 42 ∧
      augment_batch [[1]] [[2]] AUGMENT_DEFAULT_SEED =
        (flip_and_rotate [[1]] (rngRotateState 42) (rngFlipState 42),
         flip_and_rotate [[2]] (rngRotateState 42) (rngFlipState 42)) :=
  augment_batch_deterministic [[1]] [[2]] [[1]] [[2]] 42 42 rfl rfl rfl

/-- C1 (the claim FAILS on the code): with augmentation enabled,
`__getitem__` calls `augment_batch` with the `seed` parameter left at its
default 42, which reseeds a fresh generator inside every call; therefore the
result is independent of any ambient randomness — two calls on the same index
are ALWAYS equal, and the augmentation state is always the fixed pair drawn
from seed 42, never freshly drawn. -/
theorem getitem_augmentation_never_fresh (st : Stats) (d : CAREDataset)
    (a₁ a₂ : Nat → Nat) (i : Nat) (haug : d.patch_augment = true) :
    CAREDataset.getitem st d a₁ i = CAREDataset.getitem st d a₂ i ∧
      (CAREDataset.getitem st d a₁ i).1.data =
        [normalize (flip_and_rotate (d.image_data.getD i [])
          (rngRotateState 42) (rngFlipState 42)) st.train_mean st.train_std] := by
  refine ⟨rfl, ?_⟩
  simp [CAREDataset.getitem, haug, augment_batch, AUGMENT_DEFAULT_SEED]

/-- Witness for C1: a concrete augmented dataset where two calls with
different ambient entropy coincide on index 0. -/
theorem getitem_augmentation_never_fresh_witness :
    CAREDataset.getitem ⟨0, 1, 0, 1⟩ ⟨[[[1, 2], [3, 4]]], [[[5, 6], [7, 8]]], true⟩
        (fun _ => 0) 0 =
      CAREDataset.getitem ⟨0, 1, 0, 1⟩ ⟨[[[1, 2], [3, 4]]], [[[5, 6], [7, 8]]], true⟩
        (fun n => n + 17) 0 ∧
      (CAREDataset.getitem ⟨0, 1, 0, 1⟩ ⟨[[[1, 2], [3, 4]]], [[[5, 6], [7, 8]]], true⟩
        (fun _ => 0) 0).1.data =
        [normalize (flip_and_rotate [[1, 2], [3, 4]]
          (rngRotateState 42) (rngFlipState 42)) 0 1] :=
  getitem_augmentation_never_fresh ⟨0, 1, 0, 1⟩
    ⟨[[[1, 2], [3, 4]]], [[[5, 6], [7, 8]]], true⟩ (fun _ => 0) (fun n => n + 17) 0 rfl

/-- C9: for a valid index into a dataset of square `k × k` patches,
`__getitem__` returns float32 arrays of shape `(1, k, k)`; the first is the
(possibly augmented) patch normalized with the SOURCE statistics
(`train_mean`, `train_std`) and the second the matching target normalized
with the TARGET statistics (`target_mean`, `target_std`) — never mixed. -/
theorem getitem_spec (st : Stats) (d : CAREDataset) (a : Nat → Nat) (i k : Nat)
    (hi : i < d.len)
    (hp : matShape (d.image_data.getD i []) = (k, k))
    (ht : matShape (d.target_data.getD i []) = (k, k)) :
    ((CAREDataset.getitem st d a i).1.dtype = Dtype.float32 ∧
     (CAREDataset.getitem st d a i).2.dtype = Dtype.float32) ∧
    ((CAREDataset.getitem st d a i).1.data.length = 1 ∧
     (CAREDataset.getitem st d a i).2.data.length = 1 ∧
     matShape ((CAREDataset.getitem st d a i).1.data.headD []) = (k, k) ∧
     matShape ((CAREDataset.getitem st d a i).2.data.headD []) = (k, k)) ∧
    ∃ p t : Mat,
      (p, t) = (if d.patch_augment then
                  augment_batch (d.image_data.getD i []) (d.target_data.getD i [])
                    AUGMENT_DEFAULT_SEED
                else (d.image_data.getD i [], d.target_data.getD i [])) ∧
      (CAREDataset.getitem st d a i).1.data = [normalize p st.train_mean st.train_std] ∧
      (CAREDataset.getitem st d a i).2.data = [normalize t st.target_mean st.target_std] := by
  cases haug : d.patch_augment with
  | false =>
    rw [getitem_eq_of_not_augment st d a i haug]
    refine ⟨⟨rfl, rfl⟩, ⟨rfl, rfl, ?_, ?_⟩, ?_⟩
    · exact (matShape_normalize _ _ _).trans hp
    · exact (matShape_normalize _ _ _).trans ht
    · exact ⟨d.image_data.getD i [], d.target_data.getD i [],
        by simp [haug], rfl, rfl⟩
  | true =>
    rw [getitem_eq_of_augment st d a i haug]
    refine ⟨⟨rfl, rfl⟩, ⟨rfl, rfl, ?_, ?_⟩, ?_⟩
    · exact (matShape_normalize _ _ _).trans
        (matShape_flip_and_rotate_square k _ _ _ hp)
    · exact (matShape_normalize _ _ _).trans
        (matShape_flip_and_rotate_square k _ _ _ ht)
    · exact ⟨(augment_batch (d.image_data.getD i []) (d.target_data.getD i [])
          AUGMENT_DEFAULT_SEED).1,
        (augment_batch (d.image_data.getD i []) (d.target_data.getD i [])
          AUGMENT_DEFAULT_SEED).2,
        by simp [haug], rfl, rfl⟩

/-- Witness for C9: a concrete augmented dataset of 2 × 2 patches, index 0. -/
theorem getitem_spec_witness :
    ((CAREDataset.getitem ⟨0, 1, 0, 1⟩ ⟨[[[1, 2], [3, 4]]], [[[5, 6], [7, 8]]], true⟩
        (fun _ => 0) 0).1.dtype = Dtype.float32 ∧
     (CAREDataset.getitem ⟨0, 1, 0, 1⟩ ⟨[[[1, 2], [3, 4]]], [[[5, 6], [7, 8]]], true⟩
        (fun _ => 0) 0).2.dtype = Dtype.float32) ∧
    ((CAREDataset.getitem ⟨0, 1, 0, 1⟩ ⟨[[[1, 2], [3, 4]]], [[[5, 6], [7, 8]]], true⟩
        (fun _ => 0) 0).1.data.length = 1 ∧
     (CAREDataset.getitem ⟨0, 1, 0, 1⟩ ⟨[[[1, 2], [3, 4]]], [[[5, 6], [7, 8]]], true⟩
        (fun _ => 0) 0).2.data.length = 1 ∧
     matShape ((CAREDataset.getitem ⟨0, 1, 0, 1⟩ ⟨[[[1, 2], [3, 4]]], [[[5, 6], [7, 8]]], true⟩
        (fun _ => 0) 0).1.data.headD []) = (2, 2) ∧
     matShape ((CAREDataset.getitem ⟨0, 1, 0, 1⟩ ⟨[[[1, 2], [3, 4]]], [[[5, 6], [7, 8]]], true⟩
        (fun _ => 0) 0).2.data.headD []) = (2, 2)) ∧
    ∃ p t : Mat,
      (p, t) = (if (true : Bool) then
                  augment_batch [[1, 2], [3, 4]] [[5, 6], [7, 8]] AUGMENT_DEFAULT_SEED
                else ([[1, 2], [3, 4]], [[5, 6], [7, 8]])) ∧
      (CAREDataset.getitem ⟨0, 1, 0, 1⟩ ⟨[[[1, 2], [3, 4]]], [[[5, 6], [7, 8]]], true⟩
        (fun _ => 0) 0).1.data = [normalize p 0 1] ∧
      (CAREDataset.getitem ⟨0, 1, 0, 1⟩ ⟨[[[1, 2], [3, 4]]], [[[5, 6], [7, 8]]], true⟩
        (fun _ => 0) 0).2.data = [normalize t 0 1] :=
  getitem_spec ⟨0, 1, 0, 1⟩ ⟨[[[1, 2], [3, 4]]], [[[5, 6], [7, 8]]], true⟩
    (fun _ => 0) 0 2 (by decide) (by decide) (by decide)

/-! ### Lemmas about `mapE` -/

theorem mapE_ok_of_forall {α β : Type} (f : α → Except String β) (g : α → β) :
    ∀ l : List α, (∀ a ∈ l, f a = .ok (g a)) → mapE f l = .ok (l.map g)
  | [], _ => rfl
  | a :: l, h => by
    have ha : f a = .ok (g a) := h a (List.mem_cons_self a l)
    have hl : mapE f l = .ok (l.map g) :=
      mapE_ok_of_forall f g l (fun b hb => h b (List.mem_cons_of_mem a hb))
    simp [mapE, ha, hl]

theorem mapE_ok_length {α β : Type} (f : α → Except String β) :
    ∀ (l : List α) (ys : List β), mapE f l = .ok ys → ys.length = l.length
  | [], ys, h => by
    simp only [mapE, Except.ok.injEq] at h
    simp [← h]
  | a :: l, ys, h => by
    cases hfa : f a with
    | error e => simp [mapE, hfa] at h
    | ok b =>
      cases hml : mapE f l with
      | error e => simp [mapE, hfa, hml] at h
      | ok bs =>
        simp only [mapE, hfa, hml, Except.ok.injEq] at h
        have := mapE_ok_length f l bs hml
        simp [← h, this]

theorem mapE_ok_forall {α β : Type} (f : α → Except String β) :
    ∀ (l : List α) (ys : List β), mapE f l = .ok ys → ∀ a ∈ l, ∃ y, f a = .ok y
  | [], _, _, a, ha => absurd ha (List.not_mem_nil a)
  | b :: l, ys, h, a, ha => by
    cases hfb : f b with
    | error e => simp [mapE, hfb] at h
    | ok y =>
      cases hml : mapE f l with
      | error e => simp [mapE, hfb, hml] at h
      | ok bs =>
        rcases List.mem_cons.mp ha with rfl | ha'
        · exact ⟨y, hfb⟩
        · exact mapE_ok_forall f l bs hml a ha'

theorem mapE_ok_mem {α β : Type} (f : α → Except String β) :
    ∀ (l : List α) (ys : List β), mapE f l = .ok ys → ∀ y ∈ ys, ∃ a ∈ l, f a = .ok y
  | [], ys, h, y, hy => by
    simp only [mapE, Except.ok.injEq] at h
    subst h
    exact absurd hy (List.not_mem_nil y)
  | b :: l, ys, h, y, hy => by
    cases hfb : f b with
    | error e => simp [mapE, hfb] at h
    | ok c =>
      cases hml : mapE f l with
      | error e => simp [mapE, hfb, hml] at h
      | ok bs =>
        simp only [mapE, hfb, hml, Except.ok.injEq] at h
        subst h
        rcases List.mem_cons.mp hy with rfl | hy'
        · exact ⟨b, List.mem_cons_self b l, hfb⟩
        · obtain ⟨a, ha, hfa⟩ := mapE_ok_mem f l bs hml y hy'
          exact ⟨a, List.mem_cons_of_mem b ha, hfa⟩

theorem mapE_congr {α β : Type} (f g : α → Except String β) :
    ∀ l : List α, (∀ a ∈ l, f a = g a) → mapE f l = mapE g l
  | [], _ => rfl
  | a :: l, h => by
    have ha : f a = g a := h a (List.mem_cons_self a l)
    have hl : mapE f l = mapE g l :=
      mapE_congr f g l (fun b hb => h b (List.mem_cons_of_mem a hb))
    simp [mapE, ha, hl]

theorem mapE_error_of_mem {α β : Type} (f : α → Except String β) :
    ∀ (l : List α) (a : α) (e : String), a ∈ l → f a = .error e →
      ∃ msg, mapE f l = .error msg
  | [], a, _, ha, _ => absurd ha (List.not_mem_nil a)
  | b :: l, a, e, ha, hfa => by
    cases hfb : f b with
    | error msg => exact ⟨msg, by simp [mapE, hfb]⟩
    | ok c =>
      rcases List.mem_cons.mp ha with rfl | ha'
      · rw [hfa] at hfb; exact absurd hfb (by simp)
      · obtain ⟨msg, hmsg⟩ := mapE_error_of_mem f l a e ha' hfa
        exact ⟨msg, by simp [mapE, hfb, hmsg]⟩

/-! ### Lemmas about shapes and slicing -/

theorem hasShape_arr_iff (xs : List NDA) (n : Nat) (rest : List Nat) :
    hasShape (.arr xs) (n :: rest) = true ↔
      xs.length = n ∧ ∀ x ∈ xs, hasShape x rest = true := by
  simp [hasShape, List.all_eq_true]

theorem hasShape_shape : ∀ (s : List Nat) (t : NDA),
    hasShape t s = true → (∀ d ∈ s, 0 < d) → t.shape = s
  | [], .scalar _, _, _ => rfl
  | [], .arr _, h, _ => by simp [hasShape] at h
  | _ :: _, .scalar _, h, _ => by simp [hasShape] at h
  | n :: rest, .arr xs, h, hpos => by
    rw [hasShape_arr_iff] at h
    obtain ⟨hlen, hall⟩ := h
    have hn : 0 < n := hpos n (List.mem_cons_self n rest)
    cases xs with
    | nil => simp at hlen; omega
    | cons x xs' =>
      have hx : NDA.shape x = rest :=
        hasShape_shape rest x (hall x (List.mem_cons_self x xs'))
          (fun d hd => hpos d (List.mem_cons_of_mem n hd))
      simp only [NDA.shape, hx, List.cons.injEq, and_true]
      simpa using hlen

theorem sliceLast_hasShape : ∀ (S : List Nat) (t : NDA) (coords P : List Nat),
    hasShape t S = true → coords.length = S.length → P.length = S.length →
    (∀ i, i < S.length → coords.getD i 0 + P.getD i 0 ≤ S.getD i 0) →
    hasShape (sliceLast t (coords.zip P)) P = true
  | [], t, coords, P, ht, hc, hp, _ => by
    have hc' : coords = [] := List.length_eq_zero.mp (by simpa using hc)
    have hp' : P = [] := List.length_eq_zero.mp (by simpa using hp)
    subst hc'; subst hp'
    simpa [sliceLast] using ht
  | n :: S', t, coords, P, ht, hc, hp, hb => by
    cases t with
    | scalar v => simp [hasShape] at ht
    | arr xs =>
      cases coords with
      | nil => simp at hc
      | cons c coords' =>
        cases P with
        | nil => simp at hp
        | cons p P' =>
          rw [hasShape_arr_iff] at ht
          obtain ⟨hlen, hall⟩ := ht
          rw [List.zip_cons_cons]
          simp only [sliceLast]
          rw [hasShape_arr_iff]
          have hb0 : c + p ≤ n := by simpa using hb 0 (by simp)
          refine ⟨?_, ?_⟩
          · simp only [List.length_map, sliceClamp, List.length_take,
              List.length_drop, hlen]
            omega
          · intro y hy
            obtain ⟨x, hx, rfl⟩ := List.mem_map.mp hy
            have hxxs : x ∈ xs :=
              List.mem_of_mem_drop (List.mem_of_mem_take hx)
            exact sliceLast_hasShape S' x coords' P' (hall x hxxs)
              (by simpa using hc) (by simpa using hp)
              (fun i hi => by simpa using hb (i + 1) (by simpa using Nat.succ_lt_succ hi))

theorem sliceEllipsis_eq_sliceLast (t : NDA) (sl : List (Nat × Nat))
    (h : t.ndim = sl.length) : sliceEllipsis t sl = sliceLast t sl := by
  unfold sliceEllipsis
  rw [h, Nat.sub_self]
  simp [sliceEllipsisAux]

/-! ### Lemmas about the coordinate draws of `create_patches` -/

theorem drawCrop_ok (supply : Nat → Nat → Nat → Nat) (s j : Nat) (S P : List Nat)
    (hlen : S.length = P.length)
    (hle : ∀ i, i < P.length → P.getD i 0 ≤ S.getD i 0) :
    drawCrop supply s j S P =
      .ok ((List.range P.length).map (drawnCoord supply s j S P)) := by
  unfold drawCrop
  apply mapE_ok_of_forall
  intro i hi
  have hi' : i < P.length := List.mem_range.mp hi
  have hiS : i < S.length := by omega
  have hget : S.get? i = some (S.getD i 0) := by
    rw [List.get?_eq_getElem?, List.getElem?_eq_getElem hiS]
    simp [List.getD_eq_getElem?_getD, List.getElem?_eq_getElem hiS]
  rw [hget]
  show integersEndpoint (supply s j i) ((S.getD i 0 : Int) - (P.getD i 0 : Int)) =
    Except.ok (drawnCoord supply s j S P i)
  unfold integersEndpoint
  have hle' := hle i hi'
  rw [if_neg (by omega)]
  have harg : ((S.getD i 0 : Int) - (P.getD i 0 : Int)).toNat = S.getD i 0 - P.getD i 0 := by
    omega
  rw [harg]
  rfl

theorem drawnCoord_le (supply : Nat → Nat → Nat → Nat) (s j : Nat) (S P : List Nat)
    (i : Nat) (h : P.getD i 0 ≤ S.getD i 0) :
    drawnCoord supply s j S P i + P.getD i 0 ≤ S.getD i 0 := by
  unfold drawnCoord
  have := Nat.mod_lt (supply s j i) (y := S.getD i 0 - P.getD i 0 + 1) (by omega)
  omega

theorem getD_range_map (f : Nat → Nat) (n i : Nat) (h : i < n) :
    ((List.range n).map f).getD i 0 = f i := by
  rw [List.getD_eq_getElem?_getD, List.getElem?_map]
  simp [List.getElem?_range h]

theorem ceilDivNat_pos (a b : Nat) (ha : 0 < a) (hb : 0 < b) :
    0 < ceilDivNat a b := by
  unfold ceilDivNat
  exact Nat.div_pos (by omega) hb

/-! ### The explicit value of a successful `create_patches` run -/

theorem sliceEllipsis_patch_hasShape (t : NDA) (S P coords : List Nat)
    (ht : hasShape t S = true) (hpos : ∀ d ∈ S, 0 < d)
    (hSP : S.length = P.length) (hclen : coords.length = P.length)
    (hb : ∀ i, i < P.length → coords.getD i 0 + P.getD i 0 ≤ S.getD i 0) :
    hasShape (sliceEllipsis t (coords.zip P)) P = true := by
  have hshape : t.shape = S := hasShape_shape S t ht hpos
  have hzl : (coords.zip P).length = P.length := by
    rw [List.length_zip, hclen, Nat.min_self]
  have hndim : t.ndim = (coords.zip P).length := by
    rw [NDA.ndim, hshape, hzl, hSP]
  rw [sliceEllipsis_eq_sliceLast t _ hndim]
  exact sliceLast_hasShape S t coords P ht (by omega) (by omega)
    (fun i hi => hb i (by omega))

theorem drawnCoords_spec (supply : Nat → Nat → Nat → Nat) (s j : Nat) (S P : List Nat)
    (hle : ∀ i, i < P.length → P.getD i 0 ≤ S.getD i 0) :
    ((List.range P.length).map (drawnCoord supply s j S P)).length = P.length ∧
    ∀ i, i < P.length →
      ((List.range P.length).map (drawnCoord supply s j S P)).getD i 0 + P.getD i 0 ≤
        S.getD i 0 := by
  refine ⟨by simp, fun i hi => ?_⟩
  rw [getD_range_map _ _ _ hi]
  exact drawnCoord_le supply s j S P i (hle i hi)

theorem patchesForSample_ok (supply : Nat → Nat → Nat → Nat) (s : Nat)
    (sample tgt : NDA) (S P : List Nat)
    (hs : NDA.shape sample = S)
    (hlen : S.length = P.length)
    (hle : ∀ i, i < P.length → P.getD i 0 ≤ S.getD i 0) :
    patchesForSample supply s sample tgt P =
      .ok ((List.range (ceilDivNat S.prod P.prod)).map (fun j =>
        (sliceEllipsis sample
           (((List.range P.length).map (drawnCoord supply s j S P)).zip P),
         sliceEllipsis tgt
           (((List.range P.length).map (drawnCoord supply s j S P)).zip P)))) := by
  unfold patchesForSample
  have hn : nPatches sample P = ceilDivNat S.prod P.prod := by
    simp [nPatches, hs]
  rw [hn]
  apply mapE_ok_of_forall
  intro j _
  rw [hs, drawCrop_ok supply s j S P hlen hle]

theorem drawnPatches_ok (supply : Nat → Nat → Nat → Nat)
    (imgs tgts : List NDA) (S P : List Nat)
    (hlen : imgs.length ≤ tgts.length)
    (hSP : S.length = P.length)
    (hle : ∀ i, i < P.length → P.getD i 0 ≤ S.getD i 0)
    (hshape : ∀ t ∈ imgs, NDA.shape t = S) :
    drawnPatches supply imgs tgts P =
      .ok ((List.range imgs.length).map (fun s =>
        (List.range (ceilDivNat S.prod P.prod)).map (fun j =>
          (sliceEllipsis (imgs.getD s (.arr []))
             (((List.range P.length).map (drawnCoord supply s j S P)).zip P),
           sliceEllipsis (tgts.getD s (.arr []))
             (((List.range P.length).map (drawnCoord supply s j S P)).zip P))))) := by
  unfold drawnPatches
  apply mapE_ok_of_forall
  intro s hs
  have hs' : s < imgs.length := List.mem_range.mp hs
  have hst : s < tgts.length := lt_of_lt_of_le hs' hlen
  have h1 : imgs.get? s = some (imgs.getD s (.arr [])) := by
    rw [List.get?_eq_getElem?, List.getElem?_eq_getElem hs']
    simp [List.getD_eq_getElem?_getD, List.getElem?_eq_getElem hs']
  have h2 : tgts.get? s = some (tgts.getD s (.arr [])) := by
    rw [List.get?_eq_getElem?, List.getElem?_eq_getElem hst]
    simp [List.getD_eq_getElem?_getD, List.getElem?_eq_getElem hst]
  rw [h1, h2]
  show patchesForSample supply s (imgs.getD s (.arr [])) (tgts.getD s (.arr [])) P = _
  have hmem : imgs.getD s (.arr []) ∈ imgs := by
    rw [List.getD_eq_getElem?_getD, List.getElem?_eq_getElem hs']
    exact List.getElem_mem hs'
  exact patchesForSample_ok supply s _ _ S P (hshape _ hmem) hSP hle

theorem npStack_ok_of_shape (P : List Nat) :
    ∀ ps : List NDA, ps ≠ [] → (∀ q ∈ ps, NDA.shape q = P) →
      npStack ps = .ok (.arr ps)
  | [], hne, _ => absurd rfl hne
  | x :: rest, _, hall => by
    have hc : (rest.all (fun y => y.shape == x.shape)) = true := by
      rw [List.all_eq_true]
      intro y hy
      rw [hall y (List.mem_cons_of_mem x hy), hall x (List.mem_cons_self x rest)]
      exact beq_self_eq_true P
    show (if (rest.all fun y => y.shape == x.shape) = true then
        Except.ok (NDA.arr (x :: rest))
      else
        (Except.error "ValueError: all input arrays must have the same shape" :
          Except String NDA)) = Except.ok (NDA.arr (x :: rest))
    rw [hc]
    simp

theorem create_patches_eq_of (supply : Nat → Nat → Nat → Nat)
    (imgs tgts : List NDA) (P : List Nat)
    (lists : List (List (NDA × NDA))) (A B : NDA)
    (h : drawnPatches supply imgs tgts P = .ok lists)
    (h1 : npStack (lists.flatten.map Prod.fst) = .ok A)
    (h2 : npStack (lists.flatten.map Prod.snd) = .ok B) :
    create_patches supply imgs tgts P = .ok (A, B) := by
  unfold create_patches
  rw [h]
  show (match npStack (lists.flatten.map Prod.fst) with
    | .error e => (.error e : Except String (NDA × NDA))
    | .ok imgsA =>
      match npStack (lists.flatten.map Prod.snd) with
      | .error e => .error e
      | .ok tgtsB => .ok (imgsA, tgtsB)) = Except.ok (A, B)
  rw [h1]
  show (match npStack (lists.flatten.map Prod.snd) with
    | .error e => (.error e : Except String (NDA × NDA))
    | .ok tgtsB => .ok (A, tgtsB)) = Except.ok (A, B)
  rw [h2]

theorem create_patches_error_of_drawn (supply : Nat → Nat → Nat → Nat)
    (imgs tgts : List NDA) (P : List Nat) (e : String)
    (h : drawnPatches supply imgs tgts P = .error e) :
    create_patches supply imgs tgts P = .error e := by
  unfold create_patches
  rw [h]

theorem explicit_pair_spec (supply : Nat → Nat → Nat → Nat)
    (imgs tgts : List NDA) (S P : List Nat) (pair : NDA × NDA)
    (hmem : pair ∈ ((List.range imgs.length).map (fun s =>
      (List.range (ceilDivNat S.prod P.prod)).map (fun j =>
        (sliceEllipsis (imgs.getD s (.arr []))
           (((List.range P.length).map (drawnCoord supply s j S P)).zip P),
         sliceEllipsis (tgts.getD s (.arr []))
           (((List.range P.length).map (drawnCoord supply s j S P)).zip P))))).flatten) :
    ∃ s j, s < imgs.length ∧
      pair = (sliceEllipsis (imgs.getD s (.arr []))
           (((List.range P.length).map (drawnCoord supply s j S P)).zip P),
         sliceEllipsis (tgts.getD s (.arr []))
           (((List.range P.length).map (drawnCoord supply s j S P)).zip P)) := by
  obtain ⟨lst, hlst, hpl⟩ := List.mem_flatten.mp hmem
  obtain ⟨s, hsr, rfl⟩ := List.mem_map.mp hlst
  obtain ⟨j, hjr, rfl⟩ := List.mem_map.mp hpl
  exact ⟨s, j, List.mem_range.mp hsr, rfl⟩

theorem S_pos_of (S P : List Nat) (hSP : S.length = P.length)
    (hPpos : ∀ p ∈ P, 0 < p)
    (hle : ∀ i, i < P.length → P.getD i 0 ≤ S.getD i 0) :
    ∀ d ∈ S, 0 < d := by
  intro d hd
  obtain ⟨i, hiS, rfl⟩ := List.mem_iff_getElem.mp hd
  have hiP : i < P.length := by omega
  have hP1 : 0 < P.getD i 0 := by
    apply hPpos
    rw [List.getD_eq_getElem P 0 hiP]
    exact List.getElem_mem hiP
  have h2 := hle i hiP
  have h3 : S.getD i 0 = S[i] := List.getD_eq_getElem S 0 hiS
  omega

theorem getD_mem_of_lt (l : List NDA) (s : Nat) (h : s < l.length) :
    l.getD s (.arr []) ∈ l := by
  rw [List.getD_eq_getElem?_getD, List.getElem?_eq_getElem h]
  exact List.getElem_mem h

theorem flatten_length_const {α : Type} (N n : Nat) (g : Nat → Nat → α) :
    ((List.range N).map (fun s => (List.range n).map (g s))).flatten.length = N * n := by
  rw [List.length_flatten, List.map_map]
  have h1 : List.map (List.length ∘ fun s => (List.range n).map (g s)) (List.range N) =
      List.map (fun _ => n) (List.range N) := by
    apply List.map_congr_left
    intro a _
    simp [Function.comp]
  rw [h1, List.map_const', List.sum_replicate, List.length_range, smul_eq_mul]

/-- C3 (amended to images without non-spatial leading axes): for a stack of
images of one common shape `S` with `|S| = |P|`, every `S[i] ≥ P[i] > 0`,
`create_patches` succeeds for every entropy supply; every image contributes
exactly `ceil(prod S / prod P)` patches, the total is the sum
`N * ceil(prod S / prod P)` over the `N` images, and the two stacked results
both have shape `(total, *P)`. -/
theorem create_patches_count_and_shape (supply : Nat → Nat → Nat → Nat)
    (imgs tgts : List NDA) (S P : List Nat)
    (hne : imgs ≠ [])
    (hlen : imgs.length ≤ tgts.length)
    (hSP : S.length = P.length)
    (hPpos : ∀ p ∈ P, 0 < p)
    (hle : ∀ i, i < P.length → P.getD i 0 ≤ S.getD i 0)
    (himgs : ∀ t ∈ imgs, hasShape t S = true)
    (htgts : ∀ t ∈ tgts, hasShape t S = true) :
    ∃ ps ts : List NDA,
      create_patches supply imgs tgts P = .ok (.arr ps, .arr ts) ∧
      ps.length = imgs.length * ceilDivNat S.prod P.prod ∧
      ts.length = imgs.length * ceilDivNat S.prod P.prod ∧
      (∃ lists, drawnPatches supply imgs tgts P = .ok lists ∧
        lists.length = imgs.length ∧
        ∀ lst ∈ lists, lst.length = ceilDivNat S.prod P.prod) ∧
      hasShape (.arr ps) ((imgs.length * ceilDivNat S.prod P.prod) :: P) = true ∧
      hasShape (.arr ts) ((imgs.length * ceilDivNat S.prod P.prod) :: P) = true := by
  have hSpos : ∀ d ∈ S, 0 < d := S_pos_of S P hSP hPpos hle
  have hshape : ∀ t ∈ imgs, NDA.shape t = S :=
    fun t ht => hasShape_shape S t (himgs t ht) hSpos
  have hdp := drawnPatches_ok supply imgs tgts S P hlen hSP hle hshape
  set L := (List.range imgs.length).map (fun s =>
      (List.range (ceilDivNat S.prod P.prod)).map (fun j =>
        (sliceEllipsis (imgs.getD s (.arr []))
           (((List.range P.length).map (drawnCoord supply s j S P)).zip P),
         sliceEllipsis (tgts.getD s (.arr []))
           (((List.range P.length).map (drawnCoord supply s j S P)).zip P)))) with hL
  have hmemElt : ∀ pair ∈ L.flatten,
      hasShape pair.1 P = true ∧ hasShape pair.2 P = true := by
    intro pair hpair
    rw [hL] at hpair
    obtain ⟨s, j, hs, rfl⟩ := explicit_pair_spec supply imgs tgts S P pair hpair
    obtain ⟨hclen, hbnd⟩ := drawnCoords_spec supply s j S P hle
    have hst : s < tgts.length := lt_of_lt_of_le hs hlen
    exact ⟨sliceEllipsis_patch_hasShape _ S P _
        (himgs _ (getD_mem_of_lt imgs s hs)) hSpos hSP hclen hbnd,
      sliceEllipsis_patch_hasShape _ S P _
        (htgts _ (getD_mem_of_lt tgts s hst)) hSpos hSP hclen hbnd⟩
  have hflatlen : L.flatten.length = imgs.length * ceilDivNat S.prod P.prod := by
    rw [hL]
    exact flatten_length_const imgs.length (ceilDivNat S.prod P.prod) _
  have hpos_total : 0 < imgs.length * ceilDivNat S.prod P.prod :=
    Nat.mul_pos (List.length_pos.mpr hne)
      (ceilDivNat_pos _ _ (List.prod_pos hSpos) (List.prod_pos hPpos))
  have hfst_shape : ∀ q ∈ L.flatten.map Prod.fst, NDA.shape q = P := by
    intro q hq
    obtain ⟨pair, hpair, rfl⟩ := List.mem_map.mp hq
    exact hasShape_shape P _ (hmemElt pair hpair).1 hPpos
  have hsnd_shape : ∀ q ∈ L.flatten.map Prod.snd, NDA.shape q = P := by
    intro q hq
    obtain ⟨pair, hpair, rfl⟩ := List.mem_map.mp hq
    exact hasShape_shape P _ (hmemElt pair hpair).2 hPpos
  have hfst_ne : L.flatten.map Prod.fst ≠ [] := by
    apply List.ne_nil_of_length_pos
    rw [List.length_map, hflatlen]
    exact hpos_total
  have hsnd_ne : L.flatten.map Prod.snd ≠ [] := by
    apply List.ne_nil_of_length_pos
    rw [List.length_map, hflatlen]
    exact hpos_total
  have hstack1 := npStack_ok_of_shape P _ hfst_ne hfst_shape
  have hstack2 := npStack_ok_of_shape P _ hsnd_ne hsnd_shape
  refine ⟨L.flatten.map Prod.fst, L.flatten.map Prod.snd,
    create_patches_eq_of supply imgs tgts P L _ _ hdp hstack1 hstack2,
    ?_, ?_, ⟨L, hdp, ?_, ?_⟩, ?_, ?_⟩
  · rw [List.length_map, hflatlen]
  · rw [List.length_map, hflatlen]
  · rw [hL]
    simp
  · intro lst hlst
    rw [hL] at hlst
    obtain ⟨s, _, rfl⟩ := List.mem_map.mp hlst
    simp
  · rw [hasShape_arr_iff]
    refine ⟨by rw [List.length_map, hflatlen], ?_⟩
    intro x hx
    obtain ⟨pair, hpair, rfl⟩ := List.mem_map.mp hx
    exact (hmemElt pair hpair).1
  · rw [hasShape_arr_iff]
    refine ⟨by rw [List.length_map, hflatlen], ?_⟩
    intro x hx
    obtain ⟨pair, hpair, rfl⟩ := List.mem_map.mp hx
    exact (hmemElt pair hpair).2

/-- Witness for C3: one 2 × 2 image, patch size `(2, 2)`, the zero supply. -/
theorem create_patches_count_and_shape_witness :
    ∃ ps ts : List NDA,
      create_patches (fun _ _ _ => 0) [imgA] [imgA] [2, 2] = .ok (.arr ps, .arr ts) ∧
      ps.length = [imgA].length * ceilDivNat ([2, 2] : List Nat).prod ([2, 2] : List Nat).prod ∧
      ts.length = [imgA].length * ceilDivNat ([2, 2] : List Nat).prod ([2, 2] : List Nat).prod ∧
      (∃ lists, drawnPatches (fun _ _ _ => 0) [imgA] [imgA] [2, 2] = .ok lists ∧
        lists.length = [imgA].length ∧
        ∀ lst ∈ lists, lst.length = ceilDivNat ([2, 2] : List Nat).prod ([2, 2] : List Nat).prod) ∧
      hasShape (.arr ps)
        (([imgA].length * ceilDivNat ([2, 2] : List Nat).prod ([2, 2] : List Nat).prod) :: [2, 2]) =
        true ∧
      hasShape (.arr ts)
        (([imgA].length * ceilDivNat ([2, 2] : List Nat).prod ([2, 2] : List Nat).prod) :: [2, 2]) =
        true :=
  create_patches_count_and_shape (fun _ _ _ => 0) [imgA] [imgA] [2, 2] [2, 2]
    (List.cons_ne_nil imgA []) (Nat.le_refl 1) rfl (by decide) (by decide)
    (by decide) (by decide)

/-- Counterexample to C3 as stated: `imgLead1` has shape `(1, 2, 2)` — one
non-spatial leading axis over a 2 × 2 plane; its spatial dimensions `(2, 2)`
accommodate the patch `(2, 2)` and `prod(S)/prod(P) = 1`, so the claim
demands one patch.  But the code compares the patch against the FIRST
dimensions of the sample shape: the first coordinate draw gets the bound
`1 - 2 < 0` and raises `ValueError`, so no patch at all is produced. -/
theorem create_patches_count_and_shape_cex :
    NDA.shape imgLead1 = [1, 2, 2] ∧
    create_patches (fun _ _ _ => 0) [imgLead1] [imgLead1] [2, 2] =
      .error "ValueError: low >= high" :=
  ⟨by decide, rfl⟩

/-- C4 (amended to images without non-spatial leading axes; for images WITH
leading axes the bound is violated, see the counterexample): every drawn
patch of `create_patches` on images of shape `S` with `|S| = |P|` and
`S[d] ≥ P[d] > 0` is cut at a top-left coordinate `coords` with
`coords[d] ≤ S[d] - P[d]` (and `0 ≤ coords[d]` trivially in ℕ) in every
dimension `d`, and both members of the pair are the crops at those
coordinates. -/
theorem create_patches_coord_bounds (supply : Nat → Nat → Nat → Nat)
    (imgs tgts : List NDA) (S P : List Nat)
    (hlen : imgs.length ≤ tgts.length)
    (hSP : S.length = P.length)
    (hPpos : ∀ p ∈ P, 0 < p)
    (hle : ∀ i, i < P.length → P.getD i 0 ≤ S.getD i 0)
    (himgs : ∀ t ∈ imgs, hasShape t S = true)
    (pairLists : List (List (NDA × NDA)))
    (hok : drawnPatches supply imgs tgts P = .ok pairLists) :
    ∀ pair ∈ pairLists.flatten, ∃ (s : Nat) (coords : List Nat),
      s < imgs.length ∧ coords.length = P.length ∧
      (∀ d, d < P.length → coords.getD d 0 ≤ S.getD d 0 - P.getD d 0 ∧
        coords.getD d 0 + P.getD d 0 ≤ S.getD d 0) ∧
      pair.1 = sliceEllipsis (imgs.getD s (.arr [])) (coords.zip P) ∧
      pair.2 = sliceEllipsis (tgts.getD s (.arr [])) (coords.zip P) := by
  have hSpos : ∀ d ∈ S, 0 < d := S_pos_of S P hSP hPpos hle
  have hshape : ∀ t ∈ imgs, NDA.shape t = S :=
    fun t ht => hasShape_shape S t (himgs t ht) hSpos
  rw [drawnPatches_ok supply imgs tgts S P hlen hSP hle hshape] at hok
  injection hok with hok
  subst hok
  intro pair hpair
  obtain ⟨s, j, hs, rfl⟩ := explicit_pair_spec supply imgs tgts S P pair hpair
  obtain ⟨hclen, hbnd⟩ := drawnCoords_spec supply s j S P hle
  exact ⟨s, (List.range P.length).map (drawnCoord supply s j S P), hs, hclen,
    fun d hd => ⟨by have := hbnd d hd; omega, hbnd d hd⟩, rfl, rfl⟩

/-- Witness for C4: one 2 × 2 image, patch `(2, 2)`, the zero supply, whose
single drawn pair list is `[[(imgA, imgA)]]`. -/
theorem create_patches_coord_bounds_witness :
    ∃ (s : Nat) (coords : List Nat),
      s < ([imgA] : List NDA).length ∧ coords.length = ([2, 2] : List Nat).length ∧
      (∀ d, d < ([2, 2] : List Nat).length →
        coords.getD d 0 ≤ ([2, 2] : List Nat).getD d 0 - ([2, 2] : List Nat).getD d 0 ∧
        coords.getD d 0 + ([2, 2] : List Nat).getD d 0 ≤ ([2, 2] : List Nat).getD d 0) ∧
      (imgA, imgA).1 = sliceEllipsis (([imgA] : List NDA).getD s (.arr [])) (coords.zip [2, 2]) ∧
      (imgA, imgA).2 = sliceEllipsis (([imgA] : List NDA).getD s (.arr [])) (coords.zip [2, 2]) :=
  create_patches_coord_bounds (fun _ _ _ => 0) [imgA] [imgA] [2, 2] [2, 2]
    (Nat.le_refl 1) rfl (by decide) (by decide) (by decide) [[(imgA, imgA)]] rfl
    (imgA, imgA) (by simp)

/-- Counterexample to C4 as stated: the image `imgLead3` of shape `(3, 2, 2)`
carries one non-spatial leading axis; its spatial extent `(2, 2)` matches the
patch `(2, 2)`, so the only admissible spatial coordinate is `(0, 0)`.  Yet
the code draws coordinates from the LEADING dimensions `(3, 2)`: with the
constant supply 1 it draws `(1, 0)`, whose first component exceeds the
spatial bound `2 - 2 = 0`, and the resulting crop silently clamps to shape
`(3, 1, 2)` instead of a `(2, 2)` patch. -/
theorem create_patches_coord_bounds_cex :
    NDA.shape imgLead3 = [3, 2, 2] ∧
    drawCrop (fun _ _ _ => 1) 0 0 (NDA.shape imgLead3) [2, 2] = .ok [1, 0] ∧
    ¬ (1 + 2 ≤ 2) ∧
    hasShape (sliceEllipsis imgLead3 ([1, 0].zip [2, 2])) [3, 1, 2] = true ∧
    (∃ lists, drawnPatches (fun _ _ _ => 1) [imgLead3] [imgLead3] [2, 2] = .ok lists) :=
  ⟨by decide, rfl, by decide, by decide, ⟨_, rfl⟩⟩

/-- C5 (amended: requires the source and the target image to have the SAME
shape; when the shapes differ the two crops silently clamp differently, see
the counterexample): every drawn pair of `create_patches` consists of the
source crop and the target crop at one shared top-left coordinate, and the
two crops have identical shape `P`. -/
theorem create_patches_pairing (supply : Nat → Nat → Nat → Nat)
    (imgs tgts : List NDA) (S P : List Nat)
    (hlen : imgs.length ≤ tgts.length)
    (hSP : S.length = P.length)
    (hPpos : ∀ p ∈ P, 0 < p)
    (hle : ∀ i, i < P.length → P.getD i 0 ≤ S.getD i 0)
    (himgs : ∀ t ∈ imgs, hasShape t S = true)
    (htgts : ∀ t ∈ tgts, hasShape t S = true)
    (pairLists : List (List (NDA × NDA)))
    (hok : drawnPatches supply imgs tgts P = .ok pairLists) :
    ∀ pair ∈ pairLists.flatten, ∃ (s : Nat) (coords : List Nat),
      s < imgs.length ∧
      pair.1 = sliceEllipsis (imgs.getD s (.arr [])) (coords.zip P) ∧
      pair.2 = sliceEllipsis (tgts.getD s (.arr [])) (coords.zip P) ∧
      NDA.shape pair.1 = P ∧ NDA.shape pair.2 = P := by
  have hSpos : ∀ d ∈ S, 0 < d := S_pos_of S P hSP hPpos hle
  have hshape : ∀ t ∈ imgs, NDA.shape t = S :=
    fun t ht => hasShape_shape S t (himgs t ht) hSpos
  rw [drawnPatches_ok supply imgs tgts S P hlen hSP hle hshape] at hok
  injection hok with hok
  subst hok
  intro pair hpair
  obtain ⟨s, j, hs, rfl⟩ := explicit_pair_spec supply imgs tgts S P pair hpair
  obtain ⟨hclen, hbnd⟩ := drawnCoords_spec supply s j S P hle
  have hst : s < tgts.length := lt_of_lt_of_le hs hlen
  refine ⟨s, (List.range P.length).map (drawnCoord supply s j S P), hs, rfl, rfl, ?_, ?_⟩
  · exact hasShape_shape P _ (sliceEllipsis_patch_hasShape _ S P _
      (himgs _ (getD_mem_of_lt imgs s hs)) hSpos hSP hclen hbnd) hPpos
  · exact hasShape_shape P _ (sliceEllipsis_patch_hasShape _ S P _
      (htgts _ (getD_mem_of_lt tgts s hst)) hSpos hSP hclen hbnd) hPpos

/-- Witness for C5: one 2 × 2 image paired with itself, patch `(2, 2)`. -/
theorem create_patches_pairing_witness :
    ∃ (s : Nat) (coords : List Nat),
      s < ([imgA] : List NDA).length ∧
      (imgA, imgA).1 = sliceEllipsis (([imgA] : List NDA).getD s (.arr [])) (coords.zip [2, 2]) ∧
      (imgA, imgA).2 = sliceEllipsis (([imgA] : List NDA).getD s (.arr [])) (coords.zip [2, 2]) ∧
      NDA.shape (imgA, imgA).1 = [2, 2] ∧ NDA.shape (imgA, imgA).2 = [2, 2] :=
  create_patches_pairing (fun _ _ _ => 0) [imgA] [imgA] [2, 2] [2, 2]
    (Nat.le_refl 1) rfl (by decide) (by decide) (by decide) (by decide)
    [[(imgA, imgA)]] rfl (imgA, imgA) (by simp)

/-- Counterexample to C5 as stated: with a 2 × 2 source image but a 1 × 1
target image, `create_patches` succeeds and returns a source patch of shape
`(2, 2)` paired with a target patch of shape `(1, 1)` — the crops are taken
at the same coordinate but do NOT have identical shape, and no error is
raised. -/
theorem create_patches_pairing_cex :
    create_patches (fun _ _ _ => 0) [imgA] [imgTiny] [2, 2] =
      .ok (.arr [imgA], .arr [imgTiny]) ∧
    NDA.shape imgA = [2, 2] ∧ NDA.shape imgTiny = [1, 1] ∧
    ([2, 2] : List Nat) ≠ [1, 1] :=
  ⟨rfl, by decide, by decide, by decide⟩

/-- C8 (amended to images without non-spatial leading axes and positive
dimensions; for images with leading axes, or empty images, the failure can be
absent or land elsewhere, see the counterexample): when the images share one
shape `S` with `|S| = |P|`, all dimensions positive, and the patch exceeds
the image in some dimension `i0`, `create_patches` raises an error for every
entropy supply — it reaches the first sample, computes at least one patch to
draw, and the coordinate draw for dimension `i0` fails with
`ValueError: low >= high`; no image is silently skipped. -/
theorem create_patches_patch_too_large (supply : Nat → Nat → Nat → Nat)
    (imgs tgts : List NDA) (S P : List Nat)
    (hne : imgs ≠ [])
    (hSP : S.length = P.length)
    (hPpos : ∀ p ∈ P, 0 < p)
    (hSpos : ∀ d ∈ S, 0 < d)
    (i0 : Nat) (hi0 : i0 < P.length) (hviol : S.getD i0 0 < P.getD i0 0)
    (himgs : ∀ t ∈ imgs, hasShape t S = true) :
    ∃ msg, create_patches supply imgs tgts P = .error msg := by
  have hi0S : i0 < S.length := by omega
  have hget : S.get? i0 = some (S.getD i0 0) := by
    rw [List.get?_eq_getElem?, List.getElem?_eq_getElem hi0S]
    simp [List.getD_eq_getElem?_getD, List.getElem?_eq_getElem hi0S]
  have hdc : ∀ s j : Nat, ∃ m, drawCrop supply s j S P = .error m := by
    intro s j
    have harm : (match S.get? i0 with
        | none => (.error "IndexError: tuple index out of range" : Except String Nat)
        | some d => integersEndpoint (supply s j i0) ((d : Int) - (P.getD i0 0 : Int))) =
        .error "ValueError: low >= high" := by
      rw [hget]
      show integersEndpoint (supply s j i0) ((S.getD i0 0 : Int) - (P.getD i0 0 : Int)) =
        .error "ValueError: low >= high"
      unfold integersEndpoint
      rw [if_pos (by omega)]
    unfold drawCrop
    exact mapE_error_of_mem _ _ i0 _ (List.mem_range.mpr hi0) harm
  obtain ⟨img0, rest, rfl⟩ : ∃ img0 rest, imgs = img0 :: rest := by
    cases imgs with
    | nil => exact absurd rfl hne
    | cons a l => exact ⟨a, l, rfl⟩
  have hshape0 : NDA.shape img0 = S :=
    hasShape_shape S img0 (himgs img0 (List.mem_cons_self _ _)) hSpos
  have hnpos : 0 < nPatches img0 P := by
    unfold nPatches
    rw [hshape0]
    exact ceilDivNat_pos _ _ (List.prod_pos hSpos) (List.prod_pos hPpos)
  have hps : ∀ t0 : NDA, ∃ m, patchesForSample supply 0 img0 t0 P = .error m := by
    intro t0
    obtain ⟨m1, hm1⟩ := hdc 0 0
    have harm : (match drawCrop supply 0 0 (NDA.shape img0) P with
        | .error e => (.error e : Except String (NDA × NDA))
        | .ok coords =>
          .ok (sliceEllipsis img0 (coords.zip P), sliceEllipsis t0 (coords.zip P))) =
        .error m1 := by
      rw [hshape0, hm1]
    unfold patchesForSample
    exact mapE_error_of_mem _ _ 0 m1 (List.mem_range.mpr hnpos) harm
  have houter : ∃ m, (match (img0 :: rest).get? 0, tgts.get? 0 with
      | some sample, some tgt => patchesForSample supply 0 sample tgt P
      | _, _ => (.error "IndexError: index out of bounds" :
          Except String (List (NDA × NDA)))) = .error m := by
    cases tgts with
    | nil => exact ⟨_, rfl⟩
    | cons t0 ts' => exact hps t0
  obtain ⟨m, hm⟩ := houter
  have hlen0 : 0 ∈ List.range (img0 :: rest).length :=
    List.mem_range.mpr (by simp)
  have hdp : ∃ msg, drawnPatches supply (img0 :: rest) tgts P = .error msg := by
    unfold drawnPatches
    exact mapE_error_of_mem _ _ 0 m hlen0 hm
  obtain ⟨msg, hmsg⟩ := hdp
  exact ⟨msg, create_patches_error_of_drawn supply _ tgts P msg hmsg⟩

/-- Witness for C8: a 2 × 2 image with requested patch `(2, 3)`. -/
theorem create_patches_patch_too_large_witness :
    ∃ msg, create_patches (fun _ _ _ => 0) [imgA] [imgA] [2, 3] = .error msg :=
  create_patches_patch_too_large (fun _ _ _ => 0) [imgA] [imgA] [2, 2] [2, 3]
    (List.cons_ne_nil _ _) rfl (by decide) (by decide) 1 (by decide) (by decide)
    (by decide)

/-- Counterexample to C8 as stated: `imgTall6` has shape `(6, 2)`; with a
one-dimensional patch `(4,)` its spatial (last) extent 2 is exceeded by the
requested 4, yet `create_patches` raises nothing for the constant-zero
supply: the coordinate is drawn from the LEADING dimension (6 ≥ 4 admits it)
while the slice clamps on the last axis, so the run completes successfully. -/
theorem create_patches_patch_too_large_cex :
    NDA.shape imgTall6 = [6, 2] ∧ (2 : Nat) < 4 ∧
    (∃ res, create_patches (fun _ _ _ => 0) [imgTall6] [imgTall6] [4] = .ok res) :=
  ⟨by decide, by decide, ⟨_, rfl⟩⟩

/-- C2 (amended: `create_patches` performs NO validation of its inputs —
when the target array holds MORE images than the source array the extras are
silently ignored, the result being exactly that of the target truncated to
the source count; when it holds FEWER, the run fails only upon reaching the
first missing index, after the patches of all earlier images were already
sampled). -/
theorem create_patches_no_validation (supply : Nat → Nat → Nat → Nat)
    (imgs tgts : List NDA) (P : List Nat) :
    (imgs.length ≤ tgts.length →
      create_patches supply imgs tgts P =
        create_patches supply imgs (tgts.take imgs.length) P) ∧
    (tgts.length < imgs.length →
      ∃ msg, create_patches supply imgs tgts P = .error msg) := by
  constructor
  · intro hle
    have hdp : drawnPatches supply imgs tgts P =
        drawnPatches supply imgs (tgts.take imgs.length) P := by
      unfold drawnPatches
      apply mapE_congr
      intro s hs
      have hs' : s < imgs.length := List.mem_range.mp hs
      have htake : (tgts.take imgs.length).get? s = tgts.get? s := by
        rw [List.get?_eq_getElem?, List.get?_eq_getElem?]
        exact List.getElem?_take_of_lt hs'
      rw [htake]
    unfold create_patches
    rw [hdp]
  · intro hlt
    have hmem : tgts.length ∈ List.range imgs.length := List.mem_range.mpr hlt
    obtain ⟨sample, hsample⟩ : ∃ sample, imgs.get? tgts.length = some sample := by
      rw [List.get?_eq_getElem?]
      exact ⟨_, List.getElem?_eq_getElem hlt⟩
    have htgt : tgts.get? tgts.length = none := by
      rw [List.get?_eq_getElem?]
      exact List.getElem?_eq_none (le_refl _)
    have harm : (match imgs.get? tgts.length, tgts.get? tgts.length with
        | some sample, some tgt => patchesForSample supply tgts.length sample tgt P
        | _, _ => (.error "IndexError: index out of bounds" :
            Except String (List (NDA × NDA)))) =
        .error "IndexError: index out of bounds" := by
      rw [hsample, htgt]
    have hdp : ∃ m, drawnPatches supply imgs tgts P = .error m := by
      unfold drawnPatches
      exact mapE_error_of_mem _ _ tgts.length _ hmem harm
    obtain ⟨m, hm⟩ := hdp
    exact ⟨m, create_patches_error_of_drawn supply imgs tgts P m hm⟩

/-- Witness for C2: the truncation equality at one source image and two
target images, and the late failure at two source images and one target. -/
theorem create_patches_no_validation_witness :
    create_patches (fun _ _ _ => 0) [imgA] [imgA, imgB] [2, 2] =
      create_patches (fun _ _ _ => 0) [imgA] ([imgA, imgB].take [imgA].length) [2, 2] ∧
    ∃ msg, create_patches (fun _ _ _ => 0) [imgA, imgB] [imgA] [2, 2] = .error msg :=
  ⟨(create_patches_no_validation (fun _ _ _ => 0) [imgA] [imgA, imgB] [2, 2]).1
      (by decide),
   (create_patches_no_validation (fun _ _ _ => 0) [imgA, imgB] [imgA] [2, 2]).2
      (by decide)⟩

/-- Counterexample to C2 as stated: the source holds one image, the target
two — a count mismatch — yet `create_patches` does not fail at all: it
returns successfully, silently ignoring the extra target image. -/
theorem create_patches_no_validation_cex :
    ([imgA] : List NDA).length ≠ ([imgA, imgB] : List NDA).length ∧
    create_patches (fun _ _ _ => 0) [imgA] [imgA, imgB] [2, 2] =
      .ok (.arr [imgA], .arr [imgA]) :=
  ⟨by decide, rfl⟩

end CARE
